import Mathlib

/-!
Shallow embedding of the Activity-Monitor backend
(`src/backend/src/core/activity_analyzer.py`,
`src/backend/src/api_integrations/{fitbit,garmin,apple_health}_client.py`,
`src/backend/src/main.py`).

Modelling conventions:
* a pandas DataFrame with columns `[steps, date, interval]` is a `List Sample`;
* a float `NaN` (pandas' missing marker) is `none : Option ℚ`; present floats
  are exact rationals, so float rounding is abstracted away;
* calendar dates are days since 1970-01-01 (`ℕ`), e.g. 2024-01-01 ↦ 19723;
* `groupby(key)` sorts the distinct keys ascending, which we mirror with
  `dedup` + `insertionSort`;
* code that can raise a Python exception is modelled with `Option`/`Except`,
  `none`/`.error` marking the raising executions.
-/

/-- One row of the canonical activity DataFrame: columns `steps`, `date`,
`interval`.  `steps : Option ℚ` models a float that may be `NaN`. -/
structure Sample where
  steps : Option ℚ
  date : ℕ
  interval : ℕ
deriving DecidableEq, Repr

/-- The ascending list of distinct keys, as produced by pandas
`groupby(key)` (which sorts group keys ascending). -/
def sortedKeys {κ : Type} [LinearOrder κ] [DecidableEq κ] (l : List κ) : List κ :=
  l.dedup.insertionSort (· ≤ ·)

/-- `df.groupby(key)[col].sum().reset_index()`: one output row per distinct
key (ascending), holding the sum of the values sharing that key. -/
def groupSum {κ : Type} [LinearOrder κ] [DecidableEq κ] (pairs : List (κ × ℚ)) :
    List (κ × ℚ) :=
  (sortedKeys (pairs.map Prod.fst)).map fun k =>
    (k, ((pairs.filter fun p => p.1 == k).map Prod.snd).sum)

/-- pandas `Series.mean()` with the default `skipna=True`, applied to an
already NaN-stripped list: `NaN` (here `none`) when no values remain. -/
def meanOpt (l : List ℚ) : Option ℚ :=
  if l.isEmpty then none else some (l.sum / l.length)

/-- Minimum of a list, `none` when empty (pandas `min`/`NaN` on empty). -/
def listMin {α : Type} [LinearOrder α] (l : List α) : Option α :=
  l.foldl (fun a x => match a with | none => some x | some m => some (min m x)) none

/-- Maximum of a list, `none` when empty (pandas `max`/`NaN` on empty). -/
def listMax {α : Type} [LinearOrder α] (l : List α) : Option α :=
  l.foldl (fun a x => match a with | none => some x | some m => some (max m x)) none

/-- pandas `Series.median()`: the middle element of the sorted values, or the
average of the two middle elements; `NaN` (`none`) on an empty series. -/
def listMedian (l : List ℚ) : Option ℚ :=
  if l.isEmpty then none
  else
    let s := l.insertionSort (· ≤ ·)
    if l.length % 2 = 1 then some (s.getD (l.length / 2) 0)
    else some ((s.getD (l.length / 2 - 1) 0 + s.getD (l.length / 2) 0) / 2)

/-- pandas `Series.std()` (sample standard deviation, `ddof=1`): `NaN`
(`none`) for fewer than two values.  The code stores the square root of this
quantity; since the square root of a rational is irrational in general and
every claim only concerns definedness and degeneracy, we keep the variance. -/
def sampleVarOpt (l : List ℚ) : Option ℚ :=
  if l.length < 2 then none
  else
    some ((l.map fun x => (x - l.sum / l.length) ^ 2).sum / ((l.length : ℚ) - 1))

/-- The non-missing step values of the rows at time-of-day `interval = i`
(the NaN-stripped content of one `groupby('interval')` group). -/
def stepsAt (data : List Sample) (i : ℕ) : List ℚ :=
  (data.filter fun s => s.interval == i).filterMap Sample.steps

/-- The non-missing step values of the rows on calendar date `d`
(the NaN-stripped content of one `groupby('date')` group). -/
def stepsOnDate (data : List Sample) (d : ℕ) : List ℚ :=
  (data.filter fun s => s.date == d).filterMap Sample.steps

/-- `ActivityAnalyzer.calculate_daily_totals`:
`data.groupby('date')['steps'].sum().reset_index()`.  pandas `sum` skips NaN
and yields `0.0` for an all-NaN group (`min_count=0`). -/
def calculate_daily_totals (data : List Sample) : List (ℕ × ℚ) :=
  (sortedKeys (data.map Sample.date)).map fun d => (d, (stepsOnDate data d).sum)

/-- The `daily_statistics` dictionary of
`ActivityAnalyzer.calculate_daily_statistics`. -/
structure DailyStatistics where
  mean_steps : Option ℚ
  median_steps : Option ℚ
  min_steps : Option ℚ
  max_steps : Option ℚ
  std_steps : Option ℚ
deriving DecidableEq, Repr

/-- `ActivityAnalyzer.calculate_daily_statistics`: mean, median, min, max and
sample standard deviation of the daily totals (see `sampleVarOpt` for the
variance-vs-square-root convention).  Each is `NaN` (`none`) on degenerate
input; `float(...)` on a NaN is total, so nothing here raises. -/
def calculate_daily_statistics (data : List Sample) : DailyStatistics :=
  let totals := (calculate_daily_totals data).map Prod.snd
  ⟨meanOpt totals, listMedian totals, listMin totals, listMax totals, sampleVarOpt totals⟩

/-- `ActivityAnalyzer.calculate_interval_means`:
`data.groupby('interval')['steps'].mean().reset_index()`.  A group whose step
values are all NaN has mean NaN (`none`); its key still appears. -/
def calculate_interval_means (data : List Sample) : List (ℕ × Option ℚ) :=
  (sortedKeys (data.map Sample.interval)).map fun i => (i, meanOpt (stepsAt data i))

/-- pandas `Series.idxmax` (with `skipna=True`) over the `steps` column of the
interval-means frame, paired with the value found: the first row holding the
maximum of the non-NaN values.  `none` models the `ValueError` that `idxmax`
raises when no non-NaN value exists (on older pandas it returns `nan`, and the
subsequent `.loc[nan]` raises `KeyError` instead, so every pandas version
raises here). -/
def idxmaxStep : List (ℕ × Option ℚ) → Option (ℕ × ℚ)
  | [] => none
  | (_, none) :: t => idxmaxStep t
  | (k, some v) :: t =>
    match idxmaxStep t with
    | none => some (k, v)
    | some (k2, m) => if v < m then some (k2, m) else some (k, v)

/-- `ActivityAnalyzer.find_peak_activity_interval`: the `(interval, steps)`
row selected by `idxmax` on the interval means; `none` models the exception
on a series with no non-missing step value (in particular the empty one). -/
def find_peak_activity_interval (data : List Sample) : Option (ℕ × ℚ) :=
  idxmaxStep (calculate_interval_means data)

/-- The value `mean_by_interval.get(i, 0)` in
`ActivityAnalyzer.impute_missing_values`: the dictionary maps every interval
occurring in the data to its (possibly NaN) group mean, and the `.get`
default `0` is used only when `i` is absent from the dictionary. -/
def lookupIntervalMean (data : List Sample) (i : ℕ) : Option ℚ :=
  ((calculate_interval_means data).lookup i).getD (some 0)

/-- The row transform applied by `ActivityAnalyzer.impute_missing_values`:
`mean_by_interval.get(row['interval'], 0) if pd.isna(row['steps']) else
row['steps']`.  Assigning a NaN mean leaves the row missing. -/
def imputeRow (data : List Sample) (s : Sample) : Sample :=
  match s.steps with
  | none => { s with steps := lookupIntervalMean data s.interval }
  | some _ => s

/-- `ActivityAnalyzer.impute_missing_values`: apply `imputeRow` to every row
of a copy of the frame (the original is not mutated). -/
def impute_missing_values (data : List Sample) : List Sample :=
  data.map (imputeRow data)

/-- pandas `Timestamp.dayofweek` for an epoch-day number: Monday is `0`;
1970-01-01 (epoch day 0) was a Thursday (`3`). -/
def dayOfWeek (d : ℕ) : ℕ := (d + 3) % 7

/-- The `day_type` classification of `ActivityAnalyzer.analyze_weekday_patterns`:
`dayofweek < 5` is a weekday, otherwise weekend. -/
def isWeekday (d : ℕ) : Bool := dayOfWeek d < 5

/-- The dictionary returned by `ActivityAnalyzer.analyze_weekday_patterns`. -/
structure WeekdayPatterns where
  weekday : List (ℕ × Option ℚ)
  weekend : List (ℕ × Option ℚ)
  weekday_total_avg : Option ℚ
  weekend_total_avg : Option ℚ
deriving DecidableEq, Repr

/-- `ActivityAnalyzer.analyze_weekday_patterns`: partition the rows by
weekday/weekend, compute per-interval means and an overall mean (skipping
NaN) for each side; an empty side yields an empty frame and a NaN mean. -/
def analyze_weekday_patterns (data : List Sample) : WeekdayPatterns :=
  let wd := data.filter fun s => isWeekday s.date
  let we := data.filter fun s => !isWeekday s.date
  ⟨calculate_interval_means wd, calculate_interval_means we,
    meanOpt (wd.filterMap Sample.steps), meanOpt (we.filterMap Sample.steps)⟩

/-- The dictionary returned by `ActivityAnalyzer.get_missing_data_summary`. -/
structure MissingDataSummary where
  total_rows : ℕ
  missing_steps : ℕ
  missing_intervals : ℕ
  missing_days : ℕ
  data_completeness : ℚ
deriving DecidableEq, Repr

/-- `ActivityAnalyzer.get_missing_data_summary`.  `missing_intervals` counts
NaN entries of the integer `interval` column, which is `0` in this model;
`missing_days` counts the dates all of whose rows have NaN steps;
`data_completeness` is `(1 - missing/total) * 100`, and `0.0` when the frame
is empty. -/
def get_missing_data_summary (data : List Sample) : MissingDataSummary :=
  let total := data.length
  let missing := (data.filter fun s => s.steps.isNone).length
  let missingDays := ((sortedKeys (data.map Sample.date)).filter fun d =>
    (data.filter fun s => s.date == d).all fun s => s.steps.isNone).length
  ⟨total, missing, 0, missingDays,
    if 0 < total then (1 - (missing : ℚ) / total) * 100 else 0⟩

/-- The `time_span` part of the summary report. -/
structure TimeSpan where
  start_date : ℕ
  end_date : ℕ
  total_days : ℤ
deriving DecidableEq, Repr

/-- The `time_span` computation of `ActivityAnalyzer.generate_summary_report`:
`min`/`max` of the date column and the inclusive day span
`(max - min).days + 1`.  On an empty frame `min`/`max` are `NaT` and
`int(NaT + 1)` raises, modelled by `none`. -/
def timeSpanOf (data : List Sample) : Option TimeSpan :=
  match listMin (data.map Sample.date), listMax (data.map Sample.date) with
  | some lo, some hi => some ⟨lo, hi, (hi : ℤ) - (lo : ℤ) + 1⟩
  | _, _ => none

/-- The `peak_activity` part of the summary report. -/
structure PeakActivity where
  interval : ℕ
  average_steps : ℚ
deriving DecidableEq, Repr

/-- The dictionary returned by `ActivityAnalyzer.generate_summary_report`. -/
structure SummaryReport where
  daily_statistics : DailyStatistics
  peak_activity : PeakActivity
  weekday_patterns : WeekdayPatterns
  data_quality : MissingDataSummary
  time_span : TimeSpan
deriving DecidableEq, Repr

/-- `ActivityAnalyzer.generate_summary_report`: composes the statistics above.
`none` models the method raising: the only statements in it that can raise
are `find_peak_activity_interval` (on a series with no non-missing steps) and
the `time_span` computation (on an empty series); every other component
returns degenerate values (`NaN`, empty frames, zeros) on degenerate input. -/
def generate_summary_report (data : List Sample) : Option SummaryReport :=
  match find_peak_activity_interval data, timeSpanOf data with
  | some pk, some ts =>
    some ⟨calculate_daily_statistics data, ⟨pk.1, pk.2⟩, analyze_weekday_patterns data,
      get_missing_data_summary data, ts⟩
  | _, _ => none

/-- One entry of the Fitbit intraday `dataset`: the `'time'` field is an
`HH:MM` clock time (parsed by the code with
`hour, minute = map(int, time_str.split(':'))`), `'value'` a step count. -/
structure FitbitIntradayEntry where
  hour : ℕ
  minute : ℕ
  value : ℚ
deriving DecidableEq, Repr

/-- A raw Fitbit payload as consumed by
`FitbitClient.convert_to_activity_format`: the optional
`'activities-steps-intraday' → 'dataset'` list, and the optional
`data['summary']['steps']` total (`.get` defaults cover its absence). -/
structure FitbitPayload where
  intraday : Option (List FitbitIntradayEntry)
  summarySteps : Option ℚ
deriving DecidableEq, Repr

/-- The empty vendor payload `{}`: no intraday key, no summary key. -/
def emptyFitbitPayload : FitbitPayload := ⟨none, none⟩

/-- The 5-minute bucket of a clock time:
`(hour * 60 + minute) // 5 * 5` (floor division). -/
def fiveMinuteInterval (hour minute : ℕ) : ℕ := (hour * 60 + minute) / 5 * 5

/-- `FitbitClient.convert_to_activity_format`: with intraday data, bucket each
entry into its 5-minute interval and sum steps per interval
(`groupby('interval')['steps'].sum()`); otherwise fall back to one row at
interval `0` holding `data['summary']['steps']` (default `0`).  `none` models
the `KeyError` raised when the intraday dataset is present but empty:
`pd.DataFrame([])` has no `'interval'` column to group on. -/
def fitbit_convert_to_activity_format (date : ℕ) (data : FitbitPayload) :
    Option (List Sample) :=
  match data.intraday with
  | some dataset =>
    if dataset.isEmpty then none
    else
      some ((groupSum (dataset.map fun e =>
        (fiveMinuteInterval e.hour e.minute, e.value))).map fun p => ⟨some p.2, date, p.1⟩)
  | none => some [⟨some (data.summarySteps.getD 0), date, 0⟩]

/-- One entry of the Garmin intraday payload: `entry.get('timestamp')` parsed
to a clock time when present, and `entry.get('steps', 0)`. -/
structure GarminEntry where
  timestamp : Option (ℕ × ℕ)
  steps : Option ℚ
deriving DecidableEq, Repr

/-- `GarminClient.convert_to_activity_format`: entries without a timestamp are
skipped; the rest are bucketed into 5-minute intervals and summed per
interval, all rows carrying the requested date; when no entry survives, a
single zero row at interval `0` for the requested date is returned. -/
def garmin_convert_to_activity_format (date : ℕ) (data : List GarminEntry) :
    List Sample :=
  let intervals := data.filterMap fun e =>
    e.timestamp.map fun t => (fiveMinuteInterval t.1 t.2, e.steps.getD 0)
  if intervals.isEmpty then [⟨some 0, date, 0⟩]
  else (groupSum intervals).map fun p => ⟨some p.2, date, p.1⟩

/-- One row of the Apple-Health step-data frame handed to
`AppleHealthClient.convert_to_activity_format`: the parsed `startDate`
timestamp split into its normalized calendar date (`dt.normalize()`) and
clock time, and `row.get('value', 0)`. -/
structure AppleHealthRow where
  dateNorm : ℕ
  hour : ℕ
  minute : ℕ
  value : Option ℚ
deriving DecidableEq, Repr

/-- `pd.to_datetime('2024-01-01')`, the date hard-coded by
`AppleHealthClient.convert_to_activity_format` for an empty frame, as an
epoch-day number. -/
def appleDefaultDate : ℕ := 19723

/-- `AppleHealthClient.convert_to_activity_format`: note it receives no
requested date.  An empty frame yields a single zero row dated 2024-01-01;
otherwise rows are bucketed into 5-minute intervals and summed per
`(date, interval)` pair (`groupby(['date','interval'])`, keys sorted
lexicographically). -/
def apple_convert_to_activity_format (step_data : List AppleHealthRow) :
    List Sample :=
  if step_data.isEmpty then [⟨some 0, appleDefaultDate, 0⟩]
  else
    (groupSum (step_data.map fun r =>
      (toLex (r.dateNorm, fiveMinuteInterval r.hour r.minute), r.value.getD 0))).map
      fun p => ⟨some p.2, (ofLex p.1).1, (ofLex p.1).2⟩

/-- The GET and token-refresh call counters threaded through
`FitbitClient._make_request_with_retry`. -/
structure RequestCounts where
  gets : ℕ
  refreshes : ℕ
deriving DecidableEq, Repr

/-- The `for attempt in range(max_retries)` loop of
`FitbitClient._make_request_with_retry`, with `n` the number of remaining
attempts.  `get k` is the status code of the `k`-th HTTP GET issued and
`refresh k` the outcome of the `k`-th `refresh_access_token()` call.  A `401`
response triggers a refresh and, on refresh success, an immediate re-issue of
the request; a `429` at the non-final attempt sleeps and continues, at the
final attempt raises; a `200` returns; any other status raises; a `401` left
standing at the end of an iteration falls through to the next attempt, and
after the last attempt `response.raise_for_status()` raises the `401`
(modelled by the `n = 0` case, which is only reached that way). -/
def make_request_attempts (get : ℕ → ℕ) (refresh : ℕ → Bool) :
    ℕ → RequestCounts → Except ℕ Unit × RequestCounts
  | 0, st => (Except.error 401, st)
  | n + 1, st =>
    let r0 := get st.gets
    let st1 : RequestCounts := ⟨st.gets + 1, st.refreshes⟩
    let next :=
      if r0 = 401 then
        if refresh st1.refreshes then
          (get (st1.gets), RequestCounts.mk (st1.gets + 1) (st1.refreshes + 1))
        else (r0, RequestCounts.mk st1.gets (st1.refreshes + 1))
      else (r0, st1)
    let resp := next.1
    let st2 := next.2
    if resp = 429 then
      if 1 ≤ n then make_request_attempts get refresh n st2
      else (Except.error 429, st2)
    else if resp = 200 then (Except.ok (), st2)
    else if resp = 401 then make_request_attempts get refresh n st2
    else (Except.error resp, st2)

/-- `FitbitClient._make_request_with_retry` with its default
`max_retries = 2`, starting from zero issued calls. -/
def make_request_with_retry (get : ℕ → ℕ) (refresh : ℕ → Bool) :
    Except ℕ Unit × RequestCounts :=
  make_request_attempts get refresh 2 ⟨0, 0⟩

/-- The per-date outcome of `client.get_daily_activity_summary` inside the
Fitbit branch of `analyze_activity` (`src/backend/src/main.py`): a payload,
an exception whose message matches the rate-limit test
(`"429" / "Rate limit" / "Too Many Requests"`), or any other exception. -/
inductive FetchOutcome where
  | success (payload : FitbitPayload)
  | rateLimited
  | otherError
deriving DecidableEq, Repr

/-- The `while current_date <= end_date` loop of the Fitbit branch of
`analyze_activity`, over the remaining dates with accumulator `data_list`
(already concatenated).  A successful fetch converts and appends (a raising
conversion is caught by the same `except` and skips the date); a rate-limit
error breaks with the partial data when any exists and otherwise raises the
429 `HTTPException`; any other error skips to the next date.  After the loop,
an empty accumulation raises the 404 `HTTPException`, otherwise the
concatenated frame is analyzed. -/
def analyze_activity_fitbit_loop (outcome : ℕ → FetchOutcome) :
    List ℕ → List Sample → Except ℕ (List Sample)
  | [], acc => if acc.isEmpty then Except.error 404 else Except.ok acc
  | d :: ds, acc =>
    match outcome d with
    | FetchOutcome.success payload =>
      match fitbit_convert_to_activity_format d payload with
      | some rows => analyze_activity_fitbit_loop outcome ds (acc ++ rows)
      | none => analyze_activity_fitbit_loop outcome ds acc
    | FetchOutcome.rateLimited => if acc.isEmpty then Except.error 429 else Except.ok acc
    | FetchOutcome.otherError => analyze_activity_fitbit_loop outcome ds acc

/-- The dates `start_date .. start_date + len - 1`, in the strictly
increasing order the `while` loop visits them (`current_date += timedelta(days=1)`). -/
def dateRange (start len : ℕ) : List ℕ := (List.range len).map (start + ·)

/-- The whole Fitbit range fetch of `analyze_activity`: walk the requested
dates in increasing order starting from an empty `data_list`. -/
def analyze_activity_fitbit (outcome : ℕ → FetchOutcome) (start len : ℕ) :
    Except ℕ (List Sample) :=
  analyze_activity_fitbit_loop outcome (dateRange start len) []

/-- The §8 rate-limit mid-range scenario of the spec: the vendor returns a
summary of 4000 steps for 2024-01-01 (epoch day 19723) and 5000 steps for
2024-01-02, and a rate-limit error from 2024-01-03 on. -/
def rateLimitScenario : ℕ → FetchOutcome := fun d =>
  if d = 19723 then FetchOutcome.success ⟨none, some 4000⟩
  else if d = 19724 then FetchOutcome.success ⟨none, some 5000⟩
  else FetchOutcome.rateLimited

/-- A range-fetch scenario with a skippable failure inside the range: a
summary for 2024-01-01, a non-rate-limit error for 2024-01-02, a summary for
2024-01-03, and a rate-limit error from 2024-01-04 on. -/
def gapScenario : ℕ → FetchOutcome := fun d =>
  if d = 19723 then FetchOutcome.success ⟨none, some 4000⟩
  else if d = 19724 then FetchOutcome.otherError
  else if d = 19725 then FetchOutcome.success ⟨none, some 6000⟩
  else FetchOutcome.rateLimited

/-- A series realizing the spec §8 tie profile `[(0,5.0),(300,9.0),(305,9.0)]`. -/
def tieProfileSeries : List Sample :=
  [⟨some 5, 19723, 0⟩, ⟨some 9, 19723, 300⟩, ⟨some 9, 19723, 305⟩]

/-- A small series with one all-missing date (19723) and one date with two
observed rows (19724). -/
def mixedDatesSeries : List Sample :=
  [⟨none, 19723, 0⟩, ⟨some 7, 19724, 5⟩, ⟨some 3, 19724, 0⟩]

/-! ### Shared lemmas about the grouping and aggregation helpers -/

theorem mem_sortedKeys {κ : Type} [LinearOrder κ] [DecidableEq κ] {l : List κ} {k : κ} :
    k ∈ sortedKeys l ↔ k ∈ l := by
  simp [sortedKeys, List.mem_insertionSort, List.mem_dedup]

theorem sortedKeys_nodup {κ : Type} [LinearOrder κ] [DecidableEq κ] (l : List κ) :
    (sortedKeys l).Nodup :=
  (List.perm_insertionSort _ _).nodup_iff.mpr (List.nodup_dedup l)

theorem sortedKeys_sorted_le {κ : Type} [LinearOrder κ] [DecidableEq κ] (l : List κ) :
    (sortedKeys l).Sorted (· ≤ ·) :=
  List.sorted_insertionSort _ _

theorem sortedKeys_sorted_lt {κ : Type} [LinearOrder κ] [DecidableEq κ] (l : List κ) :
    (sortedKeys l).Sorted (· < ·) :=
  (sortedKeys_sorted_le l).lt_of_le (sortedKeys_nodup l)

theorem groupSum_keys {κ : Type} [LinearOrder κ] [DecidableEq κ] (pairs : List (κ × ℚ)) :
    (groupSum pairs).map Prod.fst = sortedKeys (pairs.map Prod.fst) := by
  rw [groupSum, List.map_map]
  exact List.map_id'' (fun k => rfl) _

theorem groupSum_keys_nodup {κ : Type} [LinearOrder κ] [DecidableEq κ] (pairs : List (κ × ℚ)) :
    ((groupSum pairs).map Prod.fst).Nodup := by
  rw [groupSum_keys]; exact sortedKeys_nodup _

theorem mem_groupSum {κ : Type} [LinearOrder κ] [DecidableEq κ] {pairs : List (κ × ℚ)}
    {p : κ × ℚ} (h : p ∈ groupSum pairs) :
    p.1 ∈ pairs.map Prod.fst ∧
      p.2 = ((pairs.filter fun q => q.1 == p.1).map Prod.snd).sum := by
  rcases List.mem_map.mp h with ⟨k, hk, hp⟩
  cases hp
  exact ⟨mem_sortedKeys.mp hk, rfl⟩

theorem groupSum_key_complete {κ : Type} [LinearOrder κ] [DecidableEq κ]
    {pairs : List (κ × ℚ)} {q : κ × ℚ} (hq : q ∈ pairs) :
    ∃ p ∈ groupSum pairs, p.1 = q.1 := by
  refine ⟨(q.1, ((pairs.filter fun r => r.1 == q.1).map Prod.snd).sum), ?_, rfl⟩
  exact List.mem_map.mpr ⟨q.1, mem_sortedKeys.mpr (List.mem_map.mpr ⟨q, hq, rfl⟩), rfl⟩

theorem meanOpt_eq_none_iff {l : List ℚ} : meanOpt l = none ↔ l = [] := by
  cases l <;> simp [meanOpt]

theorem meanOpt_isSome_of_ne_nil {l : List ℚ} (h : l ≠ []) : (meanOpt l).isSome := by
  cases l with
  | nil => exact absurd rfl h
  | cons a t => simp [meanOpt]

theorem listMin_isSome {α : Type} [LinearOrder α] {l : List α} (h : l ≠ []) :
    (listMin l).isSome := by
  cases l with
  | nil => exact absurd rfl h
  | cons a t =>
    rw [listMin, List.foldl_cons]
    clear h
    induction t generalizing a with
    | nil => rfl
    | cons b t ih => exact ih _

theorem listMax_isSome {α : Type} [LinearOrder α] {l : List α} (h : l ≠ []) :
    (listMax l).isSome := by
  cases l with
  | nil => exact absurd rfl h
  | cons a t =>
    rw [listMax, List.foldl_cons]
    clear h
    induction t generalizing a with
    | nil => rfl
    | cons b t ih => exact ih _

theorem lookup_map_key {β : Type} (f : ℕ → β) : ∀ (ks : List ℕ) (i : ℕ),
    ((ks.map fun k => (k, f k)).lookup i) = if i ∈ ks then some (f i) else none
  | [], i => by simp [List.lookup]
  | k :: t, i => by
    by_cases h : i = k
    · subst h
      simp [List.lookup]
    · have hb : (i == k) = false := beq_eq_false_iff_ne.mpr h
      simp [List.lookup, hb, lookup_map_key f t i, h]

theorem idxmaxStep_eq_none : ∀ {l : List (ℕ × Option ℚ)},
    idxmaxStep l = none ↔ ∀ p ∈ l, p.2 = none
  | [] => by simp [idxmaxStep]
  | (k0, none) :: t => by
    rw [idxmaxStep]
    constructor
    · intro h p hp
      rcases List.mem_cons.mp hp with h1 | h1
      · rw [h1]
      · exact (@idxmaxStep_eq_none t).mp h p h1
    · intro h
      exact (@idxmaxStep_eq_none t).mpr fun p hp => h p (List.mem_cons_of_mem _ hp)
  | (k0, some v) :: t => by
    constructor
    · intro h
      exfalso
      rw [idxmaxStep] at h
      rcases hmt : idxmaxStep t with _ | ⟨k2, m2⟩
      · rw [hmt] at h
        exact Option.noConfusion h
      · rw [hmt] at h
        dsimp only at h
        by_cases hlt : v < m2
        · rw [if_pos hlt] at h
          exact Option.noConfusion h
        · rw [if_neg hlt] at h
          exact Option.noConfusion h
    · intro h
      exact absurd (h (k0, some v) (List.mem_cons_self _ _)) (by simp)

theorem idxmaxStep_mem : ∀ {l : List (ℕ × Option ℚ)} {k : ℕ} {m : ℚ},
    idxmaxStep l = some (k, m) → (k, some m) ∈ l
  | [], k, m => by
    intro h
    simp [idxmaxStep] at h
  | (k0, none) :: t, k, m => by
    rw [idxmaxStep]
    intro h
    exact List.mem_cons_of_mem _ (idxmaxStep_mem h)
  | (k0, some v) :: t, k, m => by
    intro h
    rw [idxmaxStep] at h
    rcases hmt : idxmaxStep t with _ | ⟨k2, m2⟩
    · rw [hmt] at h
      simp only [Option.some.injEq, Prod.mk.injEq] at h
      obtain ⟨rfl, rfl⟩ := h
      exact List.mem_cons_self _ _
    · rw [hmt] at h
      dsimp only at h
      by_cases hlt : v < m2
      · rw [if_pos hlt] at h
        simp only [Option.some.injEq, Prod.mk.injEq] at h
        obtain ⟨rfl, rfl⟩ := h
        exact List.mem_cons_of_mem _ (idxmaxStep_mem hmt)
      · rw [if_neg hlt] at h
        simp only [Option.some.injEq, Prod.mk.injEq] at h
        obtain ⟨rfl, rfl⟩ := h
        exact List.mem_cons_self _ _

theorem idxmaxStep_le : ∀ {l : List (ℕ × Option ℚ)} {k : ℕ} {m : ℚ},
    idxmaxStep l = some (k, m) → ∀ j w, (j, some w) ∈ l → w ≤ m
  | [], k, m => by
    intro h
    simp [idxmaxStep] at h
  | (k0, none) :: t, k, m => by
    rw [idxmaxStep]
    intro h j w hm
    rcases List.mem_cons.mp hm with h1 | h1
    · exact absurd h1 (by simp)
    · exact idxmaxStep_le h j w h1
  | (k0, some v) :: t, k, m => by
    intro h j w hm
    rw [idxmaxStep] at h
    rcases hmt : idxmaxStep t with _ | ⟨k2, m2⟩
    · rw [hmt] at h
      simp only [Option.some.injEq, Prod.mk.injEq] at h
      obtain ⟨rfl, rfl⟩ := h
      rcases List.mem_cons.mp hm with h1 | h1
      · simp only [Prod.mk.injEq, Option.some.injEq] at h1
        exact le_of_eq h1.2
      · exact absurd (idxmaxStep_eq_none.mp hmt _ h1) (by simp)
    · rw [hmt] at h
      dsimp only at h
      by_cases hlt : v < m2
      · rw [if_pos hlt] at h
        simp only [Option.some.injEq, Prod.mk.injEq] at h
        obtain ⟨rfl, rfl⟩ := h
        rcases List.mem_cons.mp hm with h1 | h1
        · simp only [Prod.mk.injEq, Option.some.injEq] at h1
          rw [h1.2]
          exact le_of_lt hlt
        · exact idxmaxStep_le hmt j w h1
      · rw [if_neg hlt] at h
        simp only [Option.some.injEq, Prod.mk.injEq] at h
        obtain ⟨rfl, rfl⟩ := h
        rcases List.mem_cons.mp hm with h1 | h1
        · simp only [Prod.mk.injEq, Option.some.injEq] at h1
          exact le_of_eq h1.2
        · exact le_trans (idxmaxStep_le hmt j w h1) (not_lt.mp hlt)

theorem idxmaxStep_lowest : ∀ {l : List (ℕ × Option ℚ)} {k : ℕ} {m : ℚ},
    l.Pairwise (fun a b => a.1 < b.1) → idxmaxStep l = some (k, m) →
    ∀ j, (j, some m) ∈ l → k ≤ j
  | [], k, m => by
    intro _ h
    simp [idxmaxStep] at h
  | (k0, none) :: t, k, m => by
    intro hp h j hm
    rw [idxmaxStep] at h
    rcases List.mem_cons.mp hm with h1 | h1
    · exact absurd h1 (by simp)
    · exact idxmaxStep_lowest (List.Pairwise.of_cons hp) h j h1
  | (k0, some v) :: t, k, m => by
    intro hp h j hm
    rw [idxmaxStep] at h
    rcases hmt : idxmaxStep t with _ | ⟨k2, m2⟩
    · rw [hmt] at h
      simp only [Option.some.injEq, Prod.mk.injEq] at h
      obtain ⟨rfl, rfl⟩ := h
      rcases List.mem_cons.mp hm with h1 | h1
      · simp only [Prod.mk.injEq, Option.some.injEq] at h1
        exact le_of_eq h1.1.symm
      · exact absurd (idxmaxStep_eq_none.mp hmt _ h1) (by simp)
    · rw [hmt] at h
      dsimp only at h
      by_cases hlt : v < m2
      · rw [if_pos hlt] at h
        simp only [Option.some.injEq, Prod.mk.injEq] at h
        obtain ⟨rfl, rfl⟩ := h
        rcases List.mem_cons.mp hm with h1 | h1
        · simp only [Prod.mk.injEq, Option.some.injEq] at h1
          exact absurd (h1.2 ▸ hlt) (lt_irrefl _)
        · exact idxmaxStep_lowest (List.Pairwise.of_cons hp) hmt j h1
      · rw [if_neg hlt] at h
        simp only [Option.some.injEq, Prod.mk.injEq] at h
        obtain ⟨rfl, rfl⟩ := h
        rcases List.mem_cons.mp hm with h1 | h1
        · simp only [Prod.mk.injEq, Option.some.injEq] at h1
          exact le_of_eq h1.1.symm
        · exact le_of_lt ((List.pairwise_cons.mp hp).1 _ h1)

/-! ### Lemmas about the interval profile and imputation -/

theorem calculate_interval_means_pairwise (S : List Sample) :
    (calculate_interval_means S).Pairwise (fun a b => a.1 < b.1) := by
  rw [calculate_interval_means]
  rw [List.pairwise_map]
  exact sortedKeys_sorted_lt _

theorem stepsAt_ne_nil_of_mem {S : List Sample} {s : Sample} (hs : s ∈ S) {v : ℚ}
    (hv : s.steps = some v) : stepsAt S s.interval ≠ [] := by
  intro h
  rw [stepsAt, List.filterMap_eq_nil_iff] at h
  have hmem : s ∈ S.filter fun r => r.interval == s.interval :=
    List.mem_filter.mpr ⟨hs, by simp⟩
  rw [h s hmem] at hv
  exact Option.noConfusion hv

theorem mem_interval_means_some {S : List Sample} {s : Sample} (hs : s ∈ S) {v : ℚ}
    (hv : s.steps = some v) :
    ∃ p ∈ calculate_interval_means S, p.2 ≠ none := by
  refine ⟨(s.interval, meanOpt (stepsAt S s.interval)), ?_, ?_⟩
  · exact List.mem_map.mpr
      ⟨s.interval, mem_sortedKeys.mpr (List.mem_map.mpr ⟨s, hs, rfl⟩), rfl⟩
  · intro hnone
    exact stepsAt_ne_nil_of_mem hs hv (meanOpt_eq_none_iff.mp hnone)

theorem find_peak_isSome {S : List Sample} {s : Sample} (hs : s ∈ S) {v : ℚ}
    (hv : s.steps = some v) : (find_peak_activity_interval S).isSome := by
  rw [find_peak_activity_interval]
  rcases mem_interval_means_some hs hv with ⟨p, hp, hne⟩
  rcases h : idxmaxStep (calculate_interval_means S) with _ | q
  · exact absurd (idxmaxStep_eq_none.mp h p hp) hne
  · rfl

theorem lookupIntervalMean_eq {S : List Sample} {i : ℕ} (h : i ∈ S.map Sample.interval) :
    lookupIntervalMean S i = meanOpt (stepsAt S i) := by
  rw [lookupIntervalMean, calculate_interval_means, lookup_map_key]
  rw [if_pos (mem_sortedKeys.mpr h)]
  rfl

theorem imputeRow_interval (S : List Sample) (s : Sample) :
    (imputeRow S s).interval = s.interval := by
  rw [imputeRow]
  cases s.steps <;> rfl

theorem imputeRow_date (S : List Sample) (s : Sample) :
    (imputeRow S s).date = s.date := by
  rw [imputeRow]
  cases s.steps <;> rfl

theorem imputeRow_eq_meanRow {S : List Sample} {s : Sample} (hs : s ∈ S) :
    imputeRow S s =
      match s.steps with
      | none => { s with steps := meanOpt (stepsAt S s.interval) }
      | some _ => s := by
  rw [imputeRow]
  cases hst : s.steps with
  | some v => rfl
  | none =>
    rw [lookupIntervalMean_eq (List.mem_map.mpr ⟨s, hs, rfl⟩)]

theorem impute_eq_mapRow (S : List Sample) :
    impute_missing_values S = S.map fun s =>
      match s.steps with
      | none => { s with steps := meanOpt (stepsAt S s.interval) }
      | some _ => s := by
  rw [impute_missing_values]
  exact List.map_congr_left fun s hs => imputeRow_eq_meanRow hs

theorem stepsAt_impute_eq_nil {S : List Sample} {i : ℕ} (h : stepsAt S i = []) :
    stepsAt (impute_missing_values S) i = [] := by
  have hall : ∀ s ∈ S, s.interval = i → s.steps = none := by
    intro s hs hi
    rcases hst : s.steps with _ | v
    · rfl
    · exact absurd h (hi ▸ stepsAt_ne_nil_of_mem hs hst)
  rw [stepsAt, List.filterMap_eq_nil_iff]
  intro t ht
  rcases List.mem_filter.mp ht with ⟨htmem, hti⟩
  rcases List.mem_map.mp htmem with ⟨s, hs, rfl⟩
  have hint : s.interval = i := by
    have := imputeRow_interval S s
    simp only [this] at hti
    exact beq_iff_eq.mp hti
  have hnone := hall s hs hint
  rw [imputeRow, hnone, lookupIntervalMean_eq (List.mem_map.mpr ⟨s, hs, rfl⟩), hint, h]
  rfl

/-! ### Claim C1 -/

/-- Claim C1, counterexample: on the empty series the report generator does
not return a value — `find_peak_activity_interval` (and the time-span
computation) raise, modelled by `none` — refuting the claim that report
generation never raises for every input series including the empty one. -/
theorem c1_counterexample :
    generate_summary_report ([] : List Sample) = none ∧
      find_peak_activity_interval ([] : List Sample) = none :=
  ⟨rfl, rfl⟩

/-- Claim C1 (amended): for every series containing at least one non-missing
step value, `generate_summary_report` returns a value; moreover the
components other than the peak and the time span yield degenerate values
(not-a-number statistics, empty collections, zero completeness) on the empty
series rather than raising. -/
theorem c1_report_amended :
    (∀ S : List Sample, (∃ s ∈ S, s.steps ≠ none) →
      (generate_summary_report S).isSome) ∧
    calculate_daily_statistics [] = ⟨none, none, none, none, none⟩ ∧
    analyze_weekday_patterns [] = ⟨[], [], none, none⟩ ∧
    (get_missing_data_summary []).data_completeness = 0 := by
  refine ⟨?_, rfl, rfl, rfl⟩
  intro S h
  rcases h with ⟨s, hs, hne⟩
  rcases hst : s.steps with _ | v
  · exact absurd hst hne
  have hpeak := find_peak_isSome hs hst
  have hSne : S.map Sample.date ≠ [] := by
    cases S with
    | nil => exact absurd hs (List.not_mem_nil s)
    | cons a t => simp
  rcases Option.isSome_iff_exists.mp hpeak with ⟨pk, hpk⟩
  rcases Option.isSome_iff_exists.mp (listMin_isSome hSne) with ⟨lo, hlo⟩
  rcases Option.isSome_iff_exists.mp (listMax_isSome hSne) with ⟨hi, hhi⟩
  rw [generate_summary_report, hpk, timeSpanOf, hlo, hhi]
  rfl

/-- Claim C1, witness: a one-row series with an observed value yields a
report. -/
theorem c1_witness : (generate_summary_report [⟨some 3, 19723, 0⟩]).isSome :=
  c1_report_amended.1 [⟨some 3, 19723, 0⟩] ⟨⟨some 3, 19723, 0⟩, by simp, by simp⟩

/-! ### Claim C6 -/

/-- Claim C6, counterexample: a series whose single row is missing at
interval 0 is left missing by imputation — the interval's groupby mean is
NaN and `mean_by_interval.get(0, 0)` returns that NaN, not the default 0 —
refuting the claim that an interval with no non-missing observations has 0
substituted. -/
theorem c6_counterexample :
    impute_missing_values [⟨none, 19723, 0⟩] = [⟨none, 19723, 0⟩] ∧
      impute_missing_values [⟨none, 19723, 0⟩] ≠ [⟨some 0, 19723, 0⟩] :=
  ⟨rfl, by rw [show impute_missing_values [⟨none, 19723, 0⟩] = [⟨none, 19723, 0⟩] from rfl]; simp⟩

/-- Claim C6 (amended): imputation replaces each missing `steps` with the
full-series mean of the non-missing steps at that row's interval, and leaves
the row missing (it substitutes the interval's NaN mean, not 0) when the
interval has no non-missing observation anywhere in the series
(`meanOpt [] = none`); observed rows are unchanged. -/
theorem c6_imputation_interval_mean (S : List Sample) :
    impute_missing_values S = S.map fun s =>
      match s.steps with
      | none => { s with steps := meanOpt (stepsAt S s.interval) }
      | some _ => s :=
  impute_eq_mapRow S

/-! ### Claim C7 -/

/-- Claim C7: imputation is idempotent: imputing an already imputed series
changes nothing.  After the first pass the only missing rows left are at
intervals with no observation at all, and those intervals still have a NaN
mean in the imputed series. -/
theorem c7_impute_idempotent (S : List Sample) :
    impute_missing_values (impute_missing_values S) = impute_missing_values S := by
  have hfix : ∀ t ∈ impute_missing_values S, imputeRow (impute_missing_values S) t = t := by
    intro t ht
    rcases List.mem_map.mp ht with ⟨s, hs, rfl⟩
    have hmemT : s.interval ∈ (impute_missing_values S).map Sample.interval :=
      List.mem_map.mpr ⟨imputeRow S s, List.mem_map.mpr ⟨s, hs, rfl⟩, imputeRow_interval S s⟩
    rw [imputeRow_eq_meanRow hs]
    rcases hst : s.steps with _ | v
    · dsimp only
      rcases hmean : meanOpt (stepsAt S s.interval) with _ | m
      · have hnone : lookupIntervalMean (impute_missing_values S) s.interval = none := by
          rw [lookupIntervalMean_eq hmemT,
            stepsAt_impute_eq_nil (meanOpt_eq_none_iff.mp hmean)]
          rfl
        show (⟨lookupIntervalMean (impute_missing_values S) s.interval, s.date, s.interval⟩ : Sample)
            = ⟨none, s.date, s.interval⟩
        rw [hnone]
      · rfl
    · dsimp only
      rw [imputeRow, hst]
  calc impute_missing_values (impute_missing_values S)
      = (impute_missing_values S).map (imputeRow (impute_missing_values S)) := rfl
    _ = (impute_missing_values S).map id := List.map_congr_left hfix
    _ = impute_missing_values S := List.map_id _

/-! ### Claim C8 -/

/-- Claim C8, counterexample: a non-empty series whose only step value is
missing makes `find_peak_activity_interval` raise (modelled `none`) instead
of returning an interval, refuting the claim for every non-empty series. -/
theorem c8_counterexample :
    ([⟨none, 19723, 0⟩] : List Sample) ≠ [] ∧
      find_peak_activity_interval [⟨none, 19723, 0⟩] = none :=
  ⟨by simp, rfl⟩

/-- Claim C8 (amended): for every series with at least one non-missing step
value, `find_peak_activity_interval` returns an entry of the interval-means
profile whose mean is maximal among the non-NaN means, and on ties it
returns the lowest such interval (the profile is key-ascending and `idxmax`
keeps the first maximum). -/
theorem c8_peak_interval (S : List Sample) (h : ∃ s ∈ S, s.steps ≠ none) :
    ∃ i m, find_peak_activity_interval S = some (i, m) ∧
      (i, some m) ∈ calculate_interval_means S ∧
      (∀ j w, (j, some w) ∈ calculate_interval_means S → w ≤ m) ∧
      (∀ j, (j, some m) ∈ calculate_interval_means S → i ≤ j) := by
  rcases h with ⟨s, hs, hne⟩
  rcases hst : s.steps with _ | v
  · exact absurd hst hne
  have hpeak := find_peak_isSome hs hst
  rcases Option.isSome_iff_exists.mp hpeak with ⟨⟨i, m⟩, hpk⟩
  rw [find_peak_activity_interval] at hpk
  refine ⟨i, m, by rw [find_peak_activity_interval, hpk], ?_, ?_, ?_⟩
  · exact idxmaxStep_mem hpk
  · exact idxmaxStep_le hpk
  · exact idxmaxStep_lowest (calculate_interval_means_pairwise S) hpk

/-- Claim C8, witness: on the spec's tie profile `[(0,5),(300,9),(305,9)]`
the peak resolves to interval 300, and the amended theorem applies. -/
theorem c8_witness :
    find_peak_activity_interval tieProfileSeries = some (300, 9) ∧
      ∃ i m, find_peak_activity_interval tieProfileSeries = some (i, m) ∧
        (i, some m) ∈ calculate_interval_means tieProfileSeries ∧
        (∀ j w, (j, some w) ∈ calculate_interval_means tieProfileSeries → w ≤ m) ∧
        (∀ j, (j, some m) ∈ calculate_interval_means tieProfileSeries → i ≤ j) :=
  ⟨by norm_num [tieProfileSeries, find_peak_activity_interval, calculate_interval_means,
      sortedKeys, List.dedup, List.insertionSort, List.orderedInsert, stepsAt, meanOpt,
      idxmaxStep, List.filterMap_cons],
    c8_peak_interval tieProfileSeries
      ⟨⟨some 9, 19723, 300⟩, by simp [tieProfileSeries], by simp⟩⟩

/-! ### Claim C2 -/

/-- Claim C2, counterexample: the Apple Health adapter takes no requested
date and hard-codes `2024-01-01` (epoch day 19723) for an empty payload, so
for the spec's requested date `2024-01-02` (epoch day 19724) the produced
sample does not carry the requested date. -/
theorem c2_counterexample :
    apple_convert_to_activity_format [] ≠ [⟨some 0, 19724, 0⟩] := by
  rw [show apple_convert_to_activity_format [] = [⟨some 0, 19723, 0⟩] from rfl]
  simp

/-- Claim C2 (amended): for every requested date and empty payload the Fitbit
and Garmin adapters return exactly one sample with that date, interval 0 and
steps 0; the Apple Health adapter returns exactly one sample with interval 0
and steps 0 but with the fixed date 2024-01-01, regardless of any requested
date (its converter takes no date argument). -/
theorem c2_zero_fill (d : ℕ) :
    fitbit_convert_to_activity_format d emptyFitbitPayload = some [⟨some 0, d, 0⟩] ∧
      garmin_convert_to_activity_format d [] = [⟨some 0, d, 0⟩] ∧
      apple_convert_to_activity_format [] = [⟨some 0, appleDefaultDate, 0⟩] :=
  ⟨rfl, rfl, rfl⟩

/-! ### Claim C4 -/

/-- Claim C4, counterexample: with a server that always answers 401 and a
refresh that always fails, `_make_request_with_retry` performs two refresh
attempts (one per loop iteration) before surfacing the 401 error — not
exactly one as claimed. -/
theorem c4_counterexample :
    (make_request_with_retry (fun _ => 401) (fun _ => false)).2.refreshes = 2 ∧
      (make_request_with_retry (fun _ => 401) (fun _ => false)).2.refreshes ≠ 1 :=
  ⟨rfl, by rw [show (make_request_with_retry (fun _ => 401) (fun _ => false)).2.refreshes = 2
      from rfl]; simp⟩

/-- The number of `refresh_access_token()` calls made by the retry loop is at
most one per attempt. -/
theorem make_request_attempts_refreshes_le (get : ℕ → ℕ) (refresh : ℕ → Bool) :
    ∀ (n : ℕ) (st : RequestCounts),
      ((make_request_attempts get refresh n st).2).refreshes ≤ st.refreshes + n
  | 0, st => by simp [make_request_attempts]
  | n + 1, st => by
    rw [make_request_attempts]
    dsimp only
    split_ifs <;>
      first
        | exact le_trans (make_request_attempts_refreshes_le get refresh n _) (by dsimp only; omega)
        | (dsimp only; omega)

/-- Claim C4 (amended): a 401 response triggers a token refresh and, on
refresh success, one immediate retry; if that retry returns 200 the request
succeeds after exactly one refresh and two GETs.  If the refresh fails (or
the retry still returns 401) the attempt loop runs once more and performs a
second refresh before surfacing the 401 error, so a failed refresh does not
immediately fail the request; at most two refresh attempts ever occur. -/
theorem c4_refresh_retry (get : ℕ → ℕ) (refresh : ℕ → Bool) :
    (get 0 = 401 → refresh 0 = true → get 1 = 200 →
      make_request_with_retry get refresh = (Except.ok (), ⟨2, 1⟩)) ∧
    ((∀ k, get k = 401) → (∀ k, refresh k = false) →
      make_request_with_retry get refresh = (Except.error 401, ⟨2, 2⟩)) ∧
    (make_request_with_retry get refresh).2.refreshes ≤ 2 := by
  refine ⟨?_, ?_, make_request_attempts_refreshes_le get refresh 2 ⟨0, 0⟩⟩
  · intro h0 hr h1
    simp [make_request_with_retry, make_request_attempts, h0, hr, h1]
  · intro hget hrefresh
    simp [make_request_with_retry, make_request_attempts, hget, hrefresh]

/-- Claim C4, witness: the amended behaviours at concrete oracles — a 401
then 200 server with a working refresh succeeds with one refresh; an
always-401 server with a failing refresh errors after two refreshes. -/
theorem c4_witness :
    make_request_with_retry (fun k => if k = 0 then 401 else 200) (fun _ => true) =
        (Except.ok (), ⟨2, 1⟩) ∧
      make_request_with_retry (fun _ => 401) (fun _ => false) =
        (Except.error 401, ⟨2, 2⟩) :=
  ⟨(c4_refresh_retry _ _).1 rfl rfl rfl,
    (c4_refresh_retry _ _).2.1 (fun _ => rfl) (fun _ => rfl)⟩

/-! ### Claim C5 -/

/-- Claim C5: when a rate-limit error occurs and at least one date has
already produced data, the range fetch returns the data accumulated so far
without raising; when a rate-limit error occurs with no accumulated data the
fetch fails with the 429 error; and the spec's concrete scenario — success
for 2024-01-01 and 2024-01-02, rate limit from 2024-01-03 in a five-day
range — returns exactly the two days' samples. -/
theorem c5_rate_limit_policy :
    (∀ (outcome : ℕ → FetchOutcome) (d : ℕ) (ds : List ℕ) (acc : List Sample),
      outcome d = FetchOutcome.rateLimited → acc ≠ [] →
      analyze_activity_fitbit_loop outcome (d :: ds) acc = Except.ok acc) ∧
    (∀ (outcome : ℕ → FetchOutcome) (d : ℕ) (ds : List ℕ),
      outcome d = FetchOutcome.rateLimited →
      analyze_activity_fitbit_loop outcome (d :: ds) [] = Except.error 429) ∧
    analyze_activity_fitbit rateLimitScenario 19723 5 =
      Except.ok [⟨some 4000, 19723, 0⟩, ⟨some 5000, 19724, 0⟩] := by
  refine ⟨?_, ?_, rfl⟩
  · intro outcome d ds acc h hne
    rcases acc with _ | ⟨a, t⟩
    · exact absurd rfl hne
    · rw [analyze_activity_fitbit_loop, h]
      rfl
  · intro outcome d ds h
    rw [analyze_activity_fitbit_loop, h]
    rfl

/-- Claim C5, witness: the policy applied at concrete inputs — a rate limit
with one accumulated sample returns it, a rate limit with nothing
accumulated errors with 429. -/
theorem c5_witness :
    analyze_activity_fitbit_loop rateLimitScenario [19725, 19726] [⟨some 4000, 19723, 0⟩] =
        Except.ok [⟨some 4000, 19723, 0⟩] ∧
      analyze_activity_fitbit_loop rateLimitScenario [19725] [] = Except.error 429 :=
  ⟨c5_rate_limit_policy.1 rateLimitScenario 19725 [19726] _ rfl (by simp),
    c5_rate_limit_policy.2.1 rateLimitScenario 19725 [] rfl⟩

/-! ### Claim C10 -/

theorem filterMap_steps_filter_split (p : Sample → Bool) : ∀ (l : List Sample),
    ((l.filter p).filterMap Sample.steps).sum +
      ((l.filter fun s => !p s).filterMap Sample.steps).sum =
    (l.filterMap Sample.steps).sum
  | [] => by simp
  | s :: t => by
    have ih := filterMap_steps_filter_split p t
    cases hp : p s <;> rcases hst : s.steps with _ | v <;>
      simp [List.filter_cons, hp, hst] <;> rw [← ih] <;> ring

theorem sum_stepsOnDate_keys : ∀ (keys : List ℕ) (S : List Sample), keys.Nodup →
    (∀ s ∈ S, s.date ∈ keys) →
    (keys.map fun d => (stepsOnDate S d).sum).sum = (S.filterMap Sample.steps).sum
  | [], S => by
    intro _ hall
    cases S with
    | nil => simp
    | cons s t => exact absurd (hall s (List.mem_cons_self _ _)) (List.not_mem_nil _)
  | k :: ks, S => by
    intro hnd hall
    have hknotin : k ∉ ks := (List.nodup_cons.mp hnd).1
    have hrest : ∀ d ∈ ks,
        stepsOnDate S d = stepsOnDate (S.filter fun s => !(s.date == k)) d := by
      intro d hd
      rw [stepsOnDate, stepsOnDate, List.filter_filter]
      congr 1
      apply List.filter_congr
      intro s _
      by_cases hsd : s.date = d
      · have hdk : d ≠ k := fun hdk => hknotin (hdk ▸ hd)
        have h1 : (s.date == k) = false := beq_eq_false_iff_ne.mpr (by rw [hsd]; exact hdk)
        simp [hsd, h1]
        exact hdk
      · simp [beq_eq_false_iff_ne.mpr hsd]
    have hS2 : ∀ s ∈ S.filter fun s => !(s.date == k), s.date ∈ ks := by
      intro s hs
      rcases List.mem_filter.mp hs with ⟨hsS, hsk⟩
      rcases List.mem_cons.mp (hall s hsS) with h1 | h1
      · rw [h1] at hsk
        simp at hsk
      · exact h1
    have ih := sum_stepsOnDate_keys ks (S.filter fun s => !(s.date == k))
      (List.nodup_cons.mp hnd).2 hS2
    calc ((k :: ks).map fun d => (stepsOnDate S d).sum).sum
        = (stepsOnDate S k).sum + (ks.map fun d => (stepsOnDate S d).sum).sum := by
          rw [List.map_cons, List.sum_cons]
      _ = (stepsOnDate S k).sum
            + (ks.map fun d => (stepsOnDate (S.filter fun s => !(s.date == k)) d).sum).sum := by
          rw [List.map_congr_left fun d hd => by rw [hrest d hd]]
      _ = ((S.filter fun s => s.date == k).filterMap Sample.steps).sum
            + ((S.filter fun s => !(s.date == k)).filterMap Sample.steps).sum := by
          rw [ih]; rfl
      _ = (S.filterMap Sample.steps).sum := filterMap_steps_filter_split _ S

/-- Claim C10: `calculate_daily_totals` produces one entry per distinct date
(the ascending distinct dates of the series), each holding the sum of that
date's non-missing steps (so an all-missing date appears with total 0, not a
missing total), and the daily totals sum to the sum of all non-missing steps
of the series. -/
theorem c10_daily_totals (S : List Sample) :
    (calculate_daily_totals S).map Prod.fst = sortedKeys (S.map Sample.date) ∧
    (∀ p ∈ calculate_daily_totals S, p.2 = (stepsOnDate S p.1).sum) ∧
    ((calculate_daily_totals S).map Prod.snd).sum = (S.filterMap Sample.steps).sum ∧
    (∀ d, d ∈ S.map Sample.date → (∀ s ∈ S, s.date = d → s.steps = none) →
      (d, (0 : ℚ)) ∈ calculate_daily_totals S) := by
  refine ⟨?_, ?_, ?_, ?_⟩
  · rw [calculate_daily_totals, List.map_map]
    exact List.map_id'' (fun k => rfl) _
  · intro p hp
    rcases List.mem_map.mp hp with ⟨d, _, rfl⟩
    rfl
  · rw [calculate_daily_totals, List.map_map]
    exact sum_stepsOnDate_keys _ S (sortedKeys_nodup _)
      (fun s hs => mem_sortedKeys.mpr (List.mem_map.mpr ⟨s, hs, rfl⟩))
  · intro d hd hmiss
    have hzero : stepsOnDate S d = [] := by
      rw [stepsOnDate, List.filterMap_eq_nil_iff]
      intro s hs
      rcases List.mem_filter.mp hs with ⟨hsS, hsd⟩
      exact hmiss s hsS (beq_iff_eq.mp hsd)
    have hrw : (d, (0 : ℚ)) = (d, (stepsOnDate S d).sum) := by rw [hzero]; rfl
    rw [hrw]
    exact List.mem_map.mpr ⟨d, mem_sortedKeys.mpr hd, rfl⟩

/-- Claim C10, witness: on a series with an all-missing date 19723 and two
observed rows on 19724, the totals contain `(19723, 0)` and sum to the sum
of the observed steps. -/
theorem c10_witness :
    (19723, (0 : ℚ)) ∈ calculate_daily_totals mixedDatesSeries ∧
      ((calculate_daily_totals mixedDatesSeries).map Prod.snd).sum =
        (mixedDatesSeries.filterMap Sample.steps).sum :=
  ⟨(c10_daily_totals mixedDatesSeries).2.2.2 19723 (by simp [mixedDatesSeries]) (by decide),
    (c10_daily_totals mixedDatesSeries).2.2.1⟩

/-! ### Claim C3 -/

theorem groupSum_map_spec {κ : Type} [LinearOrder κ] [DecidableEq κ]
    {α : Type} (f : α → κ × ℚ) (l : List α) {p : κ × ℚ}
    (hp : p ∈ groupSum (l.map f)) :
    p.2 = ((l.filter fun a => (f a).1 == p.1).map fun a => (f a).2).sum := by
  have h2 := (mem_groupSum hp).2
  rw [List.filter_map, List.map_map] at h2
  exact h2

theorem beq_ofDecidableEq_lex (u v : ℕ ×ₗ ℕ) :
    (@BEq.beq _ instBEqOfDecidableEq u v) = (u == v) := by
  rw [Bool.eq_iff_iff]
  simp only [beq_iff_eq]

theorem lex_beq_split (u : ℕ × ℕ) (x : ℕ ×ₗ ℕ) :
    (toLex u == x) = ((u.1 == (ofLex x).1) && (u.2 == (ofLex x).2)) := by
  by_cases h : toLex u = x
  · have h1 : u.1 = (ofLex x).1 := congrArg (fun y => (ofLex y).1) h
    have h2 : u.2 = (ofLex x).2 := congrArg (fun y => (ofLex y).2) h
    rw [beq_iff_eq.mpr h, beq_iff_eq.mpr h1, beq_iff_eq.mpr h2]
    rfl
  · rw [beq_eq_false_iff_ne.mpr h]
    by_cases h1 : u.1 = (ofLex x).1
    · have h2 : u.2 ≠ (ofLex x).2 := by
        intro h2
        exact h (congrArg toLex (Prod.ext h1 h2))
      rw [beq_iff_eq.mpr h1, beq_eq_false_iff_ne.mpr h2]
      rfl
    · rw [beq_eq_false_iff_ne.mpr h1]
      rfl

set_option maxHeartbeats 1600000 in
/-- Claim C3: each adapter computes a raw reading's bucket as
`floor((hour*60+minute)/5)*5` and emits one sample per `(date, interval)`
bucket whose steps are the sum of the bucket's raw values: the Fitbit
converter for a non-empty intraday dataset, the Garmin converter for a
payload with at least one timestamped entry (both cover a single requested
date, so grouping by interval is grouping by the `(date, interval)` pair),
and the Apple Health converter for a non-empty frame, which groups by the
pair itself. -/
theorem c3_conversion_grouping :
    (∀ h m : ℕ, fiveMinuteInterval h m = (h * 60 + m) / 5 * 5) ∧
    (∀ (d : ℕ) (ds : List FitbitIntradayEntry) (summ : Option ℚ), ds ≠ [] →
      ∃ rows, fitbit_convert_to_activity_format d ⟨some ds, summ⟩ = some rows ∧
        (rows.map Sample.interval).Nodup ∧
        (∀ s ∈ rows, s.date = d ∧ s.steps = some
          (((ds.filter fun e => fiveMinuteInterval e.hour e.minute == s.interval).map
            FitbitIntradayEntry.value).sum)) ∧
        (∀ e ∈ ds, ∃ s ∈ rows, s.interval = fiveMinuteInterval e.hour e.minute)) ∧
    (∀ (d : ℕ) (data : List GarminEntry) (ivs : List (ℕ × ℚ)),
      (data.filterMap fun e => e.timestamp.map fun t =>
        (fiveMinuteInterval t.1 t.2, e.steps.getD 0)) = ivs → ivs ≠ [] →
      ((garmin_convert_to_activity_format d data).map Sample.interval).Nodup ∧
        (∀ s ∈ garmin_convert_to_activity_format d data, s.date = d ∧ s.steps = some
          (((ivs.filter fun q => q.1 == s.interval).map Prod.snd).sum)) ∧
        (∀ e ∈ data, ∀ hh mm : ℕ, e.timestamp = some (hh, mm) →
          ∃ s ∈ garmin_convert_to_activity_format d data,
            s.interval = fiveMinuteInterval hh mm)) ∧
    (∀ rs : List AppleHealthRow, rs ≠ [] →
      ((apple_convert_to_activity_format rs).map fun s => (s.date, s.interval)).Nodup ∧
        (∀ s ∈ apple_convert_to_activity_format rs, s.steps = some
          (((rs.filter fun r => (r.dateNorm == s.date) &&
              (fiveMinuteInterval r.hour r.minute == s.interval)).map
            fun r => r.value.getD 0).sum)) ∧
        (∀ r ∈ rs, ∃ s ∈ apple_convert_to_activity_format rs,
          s.date = r.dateNorm ∧ s.interval = fiveMinuteInterval r.hour r.minute)) := by
  refine ⟨fun h m => rfl, ?_, ?_, ?_⟩
  · intro d ds summ hne
    have hempty : ds.isEmpty = false := by
      cases ds with
      | nil => exact absurd rfl hne
      | cons e t => rfl
    refine ⟨(groupSum (ds.map fun e => (fiveMinuteInterval e.hour e.minute, e.value))).map
      (fun p => ⟨some p.2, d, p.1⟩), ?_, ?_, ?_, ?_⟩
    · simp [fitbit_convert_to_activity_format, hempty]
    · rw [List.map_map]
      exact groupSum_keys_nodup _
    · intro s hs
      rcases List.mem_map.mp hs with ⟨p, hp, rfl⟩
      exact ⟨rfl, congrArg some
        (groupSum_map_spec (fun e : FitbitIntradayEntry =>
          (fiveMinuteInterval e.hour e.minute, e.value)) ds hp)⟩
    · intro e he
      have hq : ((fiveMinuteInterval e.hour e.minute, e.value) : ℕ × ℚ) ∈
          ds.map (fun e => (fiveMinuteInterval e.hour e.minute, e.value)) :=
        List.mem_map.mpr ⟨e, he, rfl⟩
      rcases groupSum_key_complete hq with ⟨p, hp, hp1⟩
      exact ⟨⟨some p.2, d, p.1⟩, List.mem_map.mpr ⟨p, hp, rfl⟩, hp1⟩
  · intro d data ivs hivs hne
    have hempty : ivs.isEmpty = false := by
      cases ivs with
      | nil => exact absurd rfl hne
      | cons q t => rfl
    have hconv : garmin_convert_to_activity_format d data =
        (groupSum ivs).map (fun p => ⟨some p.2, d, p.1⟩) := by
      rw [garmin_convert_to_activity_format]
      rw [hivs, hempty]
      rfl
    refine ⟨?_, ?_, ?_⟩
    · rw [hconv, List.map_map]
      exact groupSum_keys_nodup _
    · intro s hs
      rw [hconv] at hs
      rcases List.mem_map.mp hs with ⟨p, hp, rfl⟩
      exact ⟨rfl, congrArg some (mem_groupSum hp).2⟩
    · intro e he hh mm hts
      have hpair : (fiveMinuteInterval hh mm, e.steps.getD 0) ∈ ivs := by
        rw [← hivs]
        exact List.mem_filterMap.mpr ⟨e, he, by rw [hts]; rfl⟩
      rcases groupSum_key_complete hpair with ⟨p, hp, hp1⟩
      exact ⟨⟨some p.2, d, p.1⟩, by rw [hconv]; exact List.mem_map.mpr ⟨p, hp, rfl⟩, hp1⟩
  · intro rs hne
    have hempty : rs.isEmpty = false := by
      cases rs with
      | nil => exact absurd rfl hne
      | cons r t => rfl
    have hconv : apple_convert_to_activity_format rs =
        (groupSum (rs.map fun r =>
          (toLex (r.dateNorm, fiveMinuteInterval r.hour r.minute), r.value.getD 0))).map
          (fun p => ⟨some p.2, (ofLex p.1).1, (ofLex p.1).2⟩) := by
      simp [apple_convert_to_activity_format, hempty]
    refine ⟨?_, ?_, ?_⟩
    · rw [hconv, List.map_map]
      have heq : ((fun s : Sample => (s.date, s.interval)) ∘
          fun p : (ℕ ×ₗ ℕ) × ℚ => (⟨some p.2, (ofLex p.1).1, (ofLex p.1).2⟩ : Sample)) =
          (fun p : (ℕ ×ₗ ℕ) × ℚ => ofLex p.1) := rfl
      rw [heq, show (fun p : (ℕ ×ₗ ℕ) × ℚ => ofLex p.1) =
        (ofLex ∘ Prod.fst) from rfl, ← List.map_map]
      exact (groupSum_keys_nodup _).map (fun a b hab => hab)
    · intro s hs
      rw [hconv] at hs
      rcases List.mem_map.mp hs with ⟨p, hp, rfl⟩
      have hval := groupSum_map_spec (fun r : AppleHealthRow =>
        (toLex (r.dateNorm, fiveMinuteInterval r.hour r.minute), r.value.getD 0)) rs hp
      simp only [beq_ofDecidableEq_lex, lex_beq_split] at hval
      exact congrArg some hval
    · intro r hr
      have hq : ((toLex (r.dateNorm, fiveMinuteInterval r.hour r.minute), r.value.getD 0) :
          (ℕ ×ₗ ℕ) × ℚ) ∈ rs.map (fun r =>
            (toLex (r.dateNorm, fiveMinuteInterval r.hour r.minute), r.value.getD 0)) :=
        List.mem_map.mpr ⟨r, hr, rfl⟩
      rcases groupSum_key_complete hq with ⟨p, hp, hp1⟩
      refine ⟨⟨some p.2, (ofLex p.1).1, (ofLex p.1).2⟩, by
        rw [hconv]; exact List.mem_map.mpr ⟨p, hp, rfl⟩, ?_, ?_⟩
      · exact congrArg (fun y : ℕ ×ₗ ℕ => (ofLex y).1) hp1
      · exact congrArg (fun y : ℕ ×ₗ ℕ => (ofLex y).2) hp1

/-- Claim C3, witness: concrete conversions — two Fitbit minute readings at
08:01 and 08:03 fall in bucket 480 and sum to 12; the Garmin and Apple
converters group and sum their timestamped entries the same way. -/
theorem c3_witness :
    (∃ rows, fitbit_convert_to_activity_format 19723 ⟨some [⟨8, 1, 5⟩, ⟨8, 3, 7⟩], none⟩ =
        some rows ∧
      (rows.map Sample.interval).Nodup ∧
      (∀ s ∈ rows, s.date = 19723 ∧ s.steps = some
        (((([⟨8, 1, 5⟩, ⟨8, 3, 7⟩] : List FitbitIntradayEntry).filter fun e =>
            fiveMinuteInterval e.hour e.minute == s.interval).map
          FitbitIntradayEntry.value).sum)) ∧
      (∀ e ∈ ([⟨8, 1, 5⟩, ⟨8, 3, 7⟩] : List FitbitIntradayEntry), ∃ s ∈ rows,
        s.interval = fiveMinuteInterval e.hour e.minute)) ∧
    (∀ r ∈ ([⟨19723, 8, 1, some 5⟩, ⟨19724, 0, 0, some 2⟩] : List AppleHealthRow),
      ∃ s ∈ apple_convert_to_activity_format [⟨19723, 8, 1, some 5⟩, ⟨19724, 0, 0, some 2⟩],
        s.date = r.dateNorm ∧ s.interval = fiveMinuteInterval r.hour r.minute) :=
  ⟨c3_conversion_grouping.2.1 19723 [⟨8, 1, 5⟩, ⟨8, 3, 7⟩] none (by simp),
    (c3_conversion_grouping.2.2.2 [⟨19723, 8, 1, some 5⟩, ⟨19724, 0, 0, some 2⟩] (by simp)).2.2⟩

/-! ### Claim C9 -/

theorem fitbit_convert_dates {d : ℕ} {p : FitbitPayload} {rows : List Sample}
    (h : fitbit_convert_to_activity_format d p = some rows) :
    ∀ s ∈ rows, s.date = d := by
  rcases p with ⟨intraday, summ⟩
  cases intraday with
  | none =>
    simp only [fitbit_convert_to_activity_format] at h
    injection h with h2
    subst h2
    intro s hs
    rcases List.mem_cons.mp hs with h1 | h1
    · rw [h1]
    · exact absurd h1 (List.not_mem_nil s)
  | some ds =>
    simp only [fitbit_convert_to_activity_format] at h
    by_cases hemp : ds.isEmpty = true
    · rw [if_pos hemp] at h
      exact absurd h (by simp)
    · rw [if_neg hemp] at h
      injection h with h2
      subst h2
      intro s hs
      rcases List.mem_map.mp hs with ⟨q, hq, rfl⟩
      rfl

theorem fitbit_loop_ok_dates (outcome : ℕ → FetchOutcome) :
    ∀ (ds : List ℕ) (acc r : List Sample),
    analyze_activity_fitbit_loop outcome ds acc = Except.ok r →
    ∃ t, r = acc ++ t ∧ ∀ s ∈ t, s.date ∈ ds
  | [], acc, r => by
    rw [analyze_activity_fitbit_loop]
    intro h
    by_cases hemp : acc.isEmpty = true
    · rw [if_pos hemp] at h
      exact absurd h (by simp)
    · rw [if_neg hemp] at h
      injection h with h2
      exact ⟨[], by rw [← h2, List.append_nil], by simp⟩
  | d :: ds, acc, r => by
    rw [analyze_activity_fitbit_loop]
    intro h
    rcases hoc : outcome d with p | _ | _ <;> rw [hoc] at h <;> dsimp only at h
    · rcases hcv : fitbit_convert_to_activity_format d p with _ | rows <;> rw [hcv] at h <;>
        dsimp only at h
      · rcases fitbit_loop_ok_dates outcome ds acc r h with ⟨t, ht, hdates⟩
        exact ⟨t, ht, fun s hs => List.mem_cons_of_mem _ (hdates s hs)⟩
      · rcases fitbit_loop_ok_dates outcome ds (acc ++ rows) r h with ⟨t, ht, hdates⟩
        refine ⟨rows ++ t, by rw [ht, List.append_assoc], ?_⟩
        intro s hs
        rcases List.mem_append.mp hs with h1 | h1
        · rw [fitbit_convert_dates hcv s h1]
          exact List.mem_cons_self _ _
        · exact List.mem_cons_of_mem _ (hdates s h1)
    · by_cases hemp : acc.isEmpty = true
      · rw [if_pos hemp] at h
        exact absurd h (by simp)
      · rw [if_neg hemp] at h
        injection h with h2
        exact ⟨[], by rw [← h2, List.append_nil], by simp⟩
    · rcases fitbit_loop_ok_dates outcome ds acc r h with ⟨t, ht, hdates⟩
      exact ⟨t, ht, fun s hs => List.mem_cons_of_mem _ (hdates s hs)⟩

theorem sorted_le_of_const {l : List ℕ} {d : ℕ} (h : ∀ x ∈ l, x = d) :
    l.Sorted (· ≤ ·) := by
  induction l with
  | nil => exact List.sorted_nil
  | cons a t ih =>
    rw [List.sorted_cons]
    refine ⟨fun b hb => ?_, ih fun x hx => h x (List.mem_cons_of_mem _ hx)⟩
    rw [h a (List.mem_cons_self _ _), h b (List.mem_cons_of_mem _ hb)]

theorem fitbit_loop_ok_sorted (outcome : ℕ → FetchOutcome) :
    ∀ (ds : List ℕ) (acc r : List Sample),
    analyze_activity_fitbit_loop outcome ds acc = Except.ok r →
    ds.Sorted (· ≤ ·) →
    (acc.map Sample.date).Sorted (· ≤ ·) →
    (∀ a ∈ acc, ∀ d ∈ ds, a.date ≤ d) →
    (r.map Sample.date).Sorted (· ≤ ·)
  | [], acc, r => by
    rw [analyze_activity_fitbit_loop]
    intro h _ hacc _
    by_cases hemp : acc.isEmpty = true
    · rw [if_pos hemp] at h
      exact absurd h (by simp)
    · rw [if_neg hemp] at h
      injection h with h2
      rw [← h2]
      exact hacc
  | d :: ds, acc, r => by
    rw [analyze_activity_fitbit_loop]
    intro h hsort hacc hcross
    rcases hoc : outcome d with p | _ | _ <;> rw [hoc] at h <;> dsimp only at h
    · rcases hcv : fitbit_convert_to_activity_format d p with _ | rows <;> rw [hcv] at h <;>
        dsimp only at h
      · exact fitbit_loop_ok_sorted outcome ds acc r h (List.sorted_cons.mp hsort).2 hacc
          fun a ha d' hd' => hcross a ha d' (List.mem_cons_of_mem _ hd')
      · have hrowsd : ∀ s ∈ rows, s.date = d := fitbit_convert_dates hcv
        have hdle : ∀ d' ∈ ds, d ≤ d' := (List.sorted_cons.mp hsort).1
        refine fitbit_loop_ok_sorted outcome ds (acc ++ rows) r h
          (List.sorted_cons.mp hsort).2 ?_ ?_
        · rw [List.map_append]
          refine List.pairwise_append.mpr ⟨hacc, @sorted_le_of_const (rows.map Sample.date) d ?_, ?_⟩
          · intro x hx
            rcases List.mem_map.mp hx with ⟨s, hs, rfl⟩
            exact hrowsd s hs
          · intro x hx y hy
            rcases List.mem_map.mp hx with ⟨a, ha, rfl⟩
            rcases List.mem_map.mp hy with ⟨s, hs, rfl⟩
            rw [hrowsd s hs]
            exact hcross a ha d (List.mem_cons_self _ _)
        · intro a ha d' hd'
          rcases List.mem_append.mp ha with h1 | h1
          · exact hcross a h1 d' (List.mem_cons_of_mem _ hd')
          · rw [hrowsd a h1]
            exact hdle d' hd'
    · by_cases hemp : acc.isEmpty = true
      · rw [if_pos hemp] at h
        exact absurd h (by simp)
      · rw [if_neg hemp] at h
        injection h with h2
        rw [← h2]
        exact hacc
    · exact fitbit_loop_ok_sorted outcome ds acc r h (List.sorted_cons.mp hsort).2 hacc
        fun a ha d' hd' => hcross a ha d' (List.mem_cons_of_mem _ hd')

/-- Claim C9, counterexample: in a five-day range where day 2 hits a
skippable (non-rate-limit) error, day 3 succeeds, and day 4 is
rate-limited, the partial result contains days 1 and 3 but not day 2 — a
scattered subset, not a contiguous span of the requested range. -/
theorem c9_counterexample :
    analyze_activity_fitbit gapScenario 19723 5 =
        Except.ok [⟨some 4000, 19723, 0⟩, ⟨some 6000, 19725, 0⟩] ∧
      (19724 : ℕ) ∉ ([⟨some 4000, 19723, 0⟩, ⟨some 6000, 19725, 0⟩] : List Sample).map
        Sample.date ∧
      (19725 : ℕ) ∈ ([⟨some 4000, 19723, 0⟩, ⟨some 6000, 19725, 0⟩] : List Sample).map
        Sample.date :=
  ⟨rfl, by decide, by decide⟩

/-- Claim C9 (amended): the range fetch visits the requested dates in
strictly increasing calendar order, so the dates of any returned (possibly
partial) series are nondecreasing and all lie inside the requested range;
but because non-rate-limit per-date failures are skipped, the covered dates
need not form a contiguous span of the range. -/
theorem c9_order_and_subset (outcome : ℕ → FetchOutcome) (start len : ℕ) (r : List Sample)
    (h : analyze_activity_fitbit outcome start len = Except.ok r) :
    (r.map Sample.date).Sorted (· ≤ ·) ∧ ∀ s ∈ r, s.date ∈ dateRange start len := by
  have hsorted : (dateRange start len).Sorted (· ≤ ·) := by
    rw [dateRange]
    exact List.Pairwise.map _
      (fun a b hab => Nat.add_le_add_left (le_of_lt hab) start)
      (List.pairwise_lt_range len)
  constructor
  · exact fitbit_loop_ok_sorted outcome (dateRange start len) [] r h hsorted
      List.sorted_nil (fun a ha => absurd ha (List.not_mem_nil a))
  · rcases fitbit_loop_ok_dates outcome (dateRange start len) [] r h with ⟨t, ht, hdates⟩
    rw [ht, List.nil_append]
    exact hdates

/-- Claim C9, witness: the amended theorem applied to the gap scenario — the
partial result's dates are nondecreasing and inside the requested range. -/
theorem c9_witness :
    ((([⟨some 4000, 19723, 0⟩, ⟨some 6000, 19725, 0⟩] : List Sample).map
        Sample.date).Sorted (· ≤ ·)) ∧
      ∀ s ∈ ([⟨some 4000, 19723, 0⟩, ⟨some 6000, 19725, 0⟩] : List Sample),
        s.date ∈ dateRange 19723 5 :=
  c9_order_and_subset gapScenario 19723 5 _ rfl
